import Mathlib

/-!
# Verification of the cosmofy archive-mutation engine and update protocol

Shallow embedding of the core of `cosmofy` (files `src/cosmofy/zipfile2.py`,
`src/cosmofy/receipt.py`, `src/cosmofy/updater.py`, `src/cosmofy/downloader.py`)
together with proofs about the embedded operations.

Conventions of the embedding:
* Python byte strings are `List Nat`; file buffers are `List Nat`.
* Python `dict`s that travel as JSON objects are insertion-ordered association
  lists `List (String × String)`; `pyGet` models `dict.get` / `dict[...]`
  (keys are unique in every dict the code constructs).
* Fallible Python code (code that can raise) returns `Except`/`Option`.
* `ZipInfo` objects are modelled by their name and header offset, the only
  fields `remove`/`_remove_member` read or write; Python compares `ZipInfo`
  by identity, the model compares structurally, which agrees on archives
  whose members have pairwise distinct header offsets (every real archive).
-/

deriving instance DecidableEq for Except

namespace Cosmofy

/-! ## `zipfile2.py`: the archive model -/

/-- The projection of a `zipfile.ZipInfo` used by `ZipFile2.remove` and
`ZipFile2._remove_member`: the member name and its physical header offset. -/
structure Member where
  filename : String
  header_offset : Nat
deriving DecidableEq, Repr

/-- State of a `ZipFile2` object: open mode, whether the backing file object
is still set (`self.fp`), the `_writing` flag, the member list (`self.filelist`
in listing order), the name index (`self.NameToInfo`), the central-directory
start offset (`self.start_dir`) and the backing byte buffer. -/
structure ZState where
  mode : String
  fpOpen : Bool
  writing : Bool
  filelist : List Member
  nameToInfo : List (String × Member)
  start_dir : Nat
  data : List Nat
deriving DecidableEq, Repr

/-- `dict.get(key)`: first value stored under `key`. -/
def pyGet {α : Type} (d : List (String × α)) (key : String) : Option α :=
  match d.find? (fun p => p.1 = key) with
  | some p => some p.2
  | none => none

/-- Read `len` bytes from the buffer at position `pos`
(models `fp.seek(pos); fp.read(len)`). -/
def fileRead (buf : List Nat) (pos len : Nat) : List Nat :=
  (buf.drop pos).take len

/-- Write `bytes` into the buffer at position `pos`
(models `fp.seek(pos); fp.write(bytes)`; positions past the end are
zero-padded, as Python does). -/
def fileWrite (buf : List Nat) (pos : Nat) (bytes : List Nat) : List Nat :=
  buf.take pos ++ List.replicate (pos - buf.length) 0 ++ bytes
    ++ buf.drop (pos + bytes.length)

/-- Ordering of members by physical header offset, the sort key
`attrgetter("header_offset")` used by `_remove_member`. -/
def memberLe (a b : Member) : Prop :=
  a.header_offset ≤ b.header_offset

instance : DecidableRel memberLe := fun a b => Nat.decLe _ _

instance : IsTotal Member memberLe := ⟨fun a b => Nat.le_total _ _⟩

instance : IsTrans Member memberLe := ⟨fun _ _ _ h h' => Nat.le_trans h h'⟩

/-- The body of the `for i, info in enumerate(filelist)` loop of
`_remove_member`, traversing the offset-sorted member list.  It returns the
`(old, updated)` pairs for the members that were shifted, the final
`entry_offset`, and the final byte buffer.  `entry_size` of the physically
last entry is measured against `start_dir`, of any other entry against the
next entry of the sorted list. -/
def removeLoop (member : Member) (startDir : Nat) :
    List Member → Nat → List Nat → List (Member × Member) × Nat × List Nat
  | [], entryOffset, buf => ([], entryOffset, buf)
  | info :: rest, entryOffset, buf =>
    if info.header_offset < member.header_offset then
      removeLoop member startDir rest entryOffset buf
    else
      let entrySize :=
        match rest with
        | [] => startDir - info.header_offset
        | next :: _ => next.header_offset - info.header_offset
      if info = member then
        removeLoop member startDir rest entrySize buf
      else
        let entryData := fileRead buf info.header_offset entrySize
        let newOffset := info.header_offset - entryOffset
        let updated : Member := { info with header_offset := newOffset }
        let buf1 := fileWrite buf newOffset entryData
        let out := removeLoop member startDir rest entryOffset buf1
        ((info, updated) :: out.1, out.2)

/-- Replace a member by its updated version if the loop shifted it
(Python mutates the shared `ZipInfo` objects in place; the model replays the
mutations onto the listing-order list). -/
def applyUpdates (pairs : List (Member × Member)) (m : Member) : Member :=
  match pairs.find? (fun p => p.1 = m) with
  | some p => p.2
  | none => m

/-- `ZipFile2._remove_member`: sort members by header offset, shift every
entry after the removed member backward by its span, reduce `start_dir`, drop
the member from the member list and from the name index. -/
def removeMember (st : ZState) (member : Member) : ZState :=
  let sortedList := st.filelist.insertionSort memberLe
  let out := removeLoop member st.start_dir sortedList 0 st.data
  { st with
    filelist := (st.filelist.map (applyUpdates out.1)).erase member
    nameToInfo := (st.nameToInfo.map (fun p => (p.1, applyUpdates out.1 p.2))).filter
      (fun p => ¬ p.1 = member.filename)
    start_dir := st.start_dir - out.2.1
    data := out.2.2 }

/-- `entry_size` as `_remove_member` computes it at one position of the
offset-sorted traversal: against the next entry, or against `start_dir` for
the physically last entry. -/
def spanAt (startDir : Nat) (info : Member) : List Member → Nat
  | [] => startDir - info.header_offset
  | next :: _ => next.header_offset - info.header_offset

/-- Shift a member backward by `s` exactly when it lies physically after
`member`. -/
def shiftAfter (member : Member) (s : Nat) (m : Member) : Member :=
  if member.header_offset < m.header_offset then
    { m with header_offset := m.header_offset - s }
  else m

/-- The claim's physical span size of a member: the distance from its header
offset to the next physical member's header offset (the smallest strictly
larger one), or to the directory start if it is physically last. -/
def spanSize (st : ZState) (member : Member) : Nat :=
  ((st.filelist.map Member.header_offset).filter
      (fun o => member.header_offset < o)).foldr min st.start_dir
    - member.header_offset

/-- Errors `ZipFile2.remove` can raise: `RuntimeError` (wrong mode),
`ValueError` (closed archive or open writing handle), `KeyError`
(`getinfo` on an absent exact name). -/
inductive ZipErr where
  | runtimeError
  | valueError
  | keyError
deriving DecidableEq, Repr

/-- `fnmatch.fnmatch` restricted to the `*`/`?` wildcards the code and spec
use (character classes are outside the modelled subset; on POSIX case
normalization is the identity).  Fuel-based so that it reduces in the kernel;
every step shortens `pattern.length + s.length`, so `fuel` bounds suffice. -/
def globMatchAux : Nat → List Char → List Char → Bool
  | 0, _, _ => false
  | _ + 1, [], s => s.isEmpty
  | fuel + 1, c :: ps, s =>
    if c = '*' then
      match s with
      | [] => globMatchAux fuel ps []
      | x :: xs => globMatchAux fuel ps (x :: xs) || globMatchAux fuel (c :: ps) xs
    else
      match s with
      | [] => false
      | x :: xs =>
        if c = '?' then globMatchAux fuel ps xs
        else c = x && globMatchAux fuel ps xs

/-- `fnmatch.fnmatch(name, pattern)` for `*`/`?` patterns. -/
def fnmatch (name pattern : String) : Bool :=
  globMatchAux (pattern.length + name.length + 1) pattern.toList name.toList

/-- The `for item in self.filelist: if fnmatch(...): self._remove_member(item)`
loop.  Python's `for` iterates the live list by index, and `_remove_member`
removes the matched item from that same list, so the loop is modelled as an
index walk over the mutating state.  The index grows every step and the list
never grows, so `filelist.length + 1` probes are enough fuel. -/
def globRemoveAux (pattern : String) : Nat → ZState → Nat → ZState
  | 0, st, _ => st
  | fuel + 1, st, i =>
    match st.filelist[i]? with
    | none => st
    | some item =>
      if fnmatch item.filename pattern then
        globRemoveAux pattern fuel (removeMember st item) (i + 1)
      else
        globRemoveAux pattern fuel st (i + 1)

/-- The glob branch of `ZipFile2.remove`. -/
def globRemove (st : ZState) (pattern : String) : ZState :=
  globRemoveAux pattern (st.filelist.length + 1) st 0

/-- `ZipFile2.remove(member)` for a string pattern: mode/state checks, then
either the exact-name branch (`getinfo`, which raises `KeyError` when the
name is absent) or the glob branch. -/
def remove (st : ZState) (pattern : String) : Except ZipErr ZState :=
  if ¬ st.mode = "a" then .error .runtimeError
  else if ¬ st.fpOpen then .error .valueError
  else if st.writing then .error .valueError
  else if ¬ pattern.toList.contains '*' ∧ ¬ pattern.toList.contains '?' then
    match pyGet st.nameToInfo pattern with
    | none => .error .keyError
    | some info => .ok (removeMember st info)
  else
    .ok (globRemove st pattern)

/-! ## `receipt.py`: dates and the receipt record

The cosmofy code only ever builds `timezone.utc`-aware datetimes (the default
`now`, and every datetime parsed by `from_dict`, which appends `+00:00`), so
the model fixes the timezone to UTC and keeps the seven calendar fields. -/

/-- A `datetime.datetime` in UTC. -/
structure PyDateTime where
  year : Nat
  month : Nat
  day : Nat
  hour : Nat
  minute : Nat
  second : Nat
  microsecond : Nat
deriving DecidableEq, Repr

/-- Gregorian leap year, as `calendar.isleap`. -/
def isLeap (y : Nat) : Bool :=
  y % 4 = 0 && (!(y % 100 = 0) || y % 400 = 0)

/-- Days in a month, as the `datetime` constructor checks. -/
def daysInMonth (y m : Nat) : Nat :=
  if m = 2 then (if isLeap y then 29 else 28)
  else if m = 4 ∨ m = 6 ∨ m = 9 ∨ m = 11 then 30
  else 31

/-- The invariant `datetime.datetime` enforces at construction: no Python
datetime with fields outside these bounds exists. -/
def PyDateTime.valid (d : PyDateTime) : Prop :=
  1 ≤ d.year ∧ d.year ≤ 9999 ∧ 1 ≤ d.month ∧ d.month ≤ 12 ∧
    1 ≤ d.day ∧ d.day ≤ daysInMonth d.year d.month ∧
    d.hour ≤ 23 ∧ d.minute ≤ 59 ∧ d.second ≤ 59 ∧ d.microsecond ≤ 999999

instance (d : PyDateTime) : Decidable d.valid := by
  unfold PyDateTime.valid; infer_instance

/-- The decimal digit character for `n % 10`. -/
def digitChar (n : Nat) : Char := Char.ofNat (48 + n % 10)

/-- Two-digit zero-padded rendering (`%02d` for values below 100). -/
def pad2 (n : Nat) : List Char := [digitChar (n / 10), digitChar n]

/-- Four-digit zero-padded rendering (`%04d` for values below 10000). -/
def pad4 (n : Nat) : List Char :=
  [digitChar (n / 1000), digitChar (n / 100), digitChar (n / 10), digitChar n]

/-- `d.isoformat()[:19]`: the fixed-width `YYYY-MM-DDTHH:MM:SS` prefix of the
ISO rendering (microseconds and the UTC offset are rendered after position 19
and are cut off by the slice). -/
def isoformat19 (d : PyDateTime) : String :=
  ⟨pad4 d.year ++ '-' :: pad2 d.month ++ '-' :: pad2 d.day
    ++ 'T' :: pad2 d.hour ++ ':' :: pad2 d.minute ++ ':' :: pad2 d.second⟩

/-- Strict `datetime` comparison `a < b` (both UTC-aware): lexicographic on
the calendar fields. -/
def PyDateTime.ltb (a b : PyDateTime) : Bool :=
  if ¬ a.year = b.year then Nat.blt a.year b.year
  else if ¬ a.month = b.month then Nat.blt a.month b.month
  else if ¬ a.day = b.day then Nat.blt a.day b.day
  else if ¬ a.hour = b.hour then Nat.blt a.hour b.hour
  else if ¬ a.minute = b.minute then Nat.blt a.minute b.minute
  else if ¬ a.second = b.second then Nat.blt a.second b.second
  else Nat.blt a.microsecond b.microsecond

/-- `RECEIPT_SCHEMA`. -/
def RECEIPT_SCHEMA : String :=
  "https://raw.githubusercontent.com/metaist/cosmofy/0.1.0/cosmofy.schema.json"

/-- Digit test for the regex character class `\d`. -/
def isDigitChar (c : Char) : Bool := '0' ≤ c && c ≤ '9'

/-- `RECEIPT_DATE`: full match of `^\d{4}-\d{2}-\d{2}T\d{2}:\d{2}:\d{2}Z$`. -/
def dateCheck (v : String) : Bool :=
  match v.toList with
  | [y1, y2, y3, y4, s1, m1, m2, s2, d1, d2, t, h1, h2, c1, n1, n2, c2, e1, e2, z] =>
    isDigitChar y1 && isDigitChar y2 && isDigitChar y3 && isDigitChar y4 &&
    s1 = '-' && isDigitChar m1 && isDigitChar m2 && s2 = '-' &&
    isDigitChar d1 && isDigitChar d2 && t = 'T' &&
    isDigitChar h1 && isDigitChar h2 && c1 = ':' &&
    isDigitChar n1 && isDigitChar n2 && c2 = ':' &&
    isDigitChar e1 && isDigitChar e2 && z = 'Z'
  | _ => false

/-- `RECEIPT_ALGO`: full match of `^[a-z0-9-_]+$`. -/
def algoCheck (v : String) : Bool :=
  !v.toList.isEmpty &&
    v.toList.all (fun c => ('a' ≤ c && c ≤ 'z') || isDigitChar c || c = '-' || c = '_')

/-- `RECEIPT_HASH`: full match of `^[a-f0-9]+$`. -/
def hashCheck (v : String) : Bool :=
  !v.toList.isEmpty &&
    v.toList.all (fun c => ('a' ≤ c && c ≤ 'f') || isDigitChar c)

/-- `bool(v.strip())`: some character survives stripping whitespace. -/
def stripCheck (v : String) : Bool :=
  v.toList.any (fun c => !c.isWhitespace)

/-- The validation report of `Receipt.find_issues`. -/
structure Issues where
  missing : List String
  unknown : List String
  malformed : List String
deriving DecidableEq, Repr

/-- The keys of the `rules` dict of `find_issues`, in insertion order. -/
def rulesKeys : List String :=
  ["$schema", "kind", "date", "algo", "hash", "receipt_url", "release_url", "version"]

/-- The `rules` dict of `find_issues`: the strict per-field checks. -/
def checkRule (name v : String) : Bool :=
  if name = "$schema" then v = RECEIPT_SCHEMA
  else if name = "kind" then v = "embedded" || v = "published"
  else if name = "date" then dateCheck v
  else if name = "algo" then algoCheck v
  else if name = "hash" then hashCheck v
  else stripCheck v

/-- One iteration of the `for name, rule in rules.items()` loop. -/
def issueStep (data : List (String × String)) (kind : String)
    (iss : Issues) (name : String) : Issues :=
  match pyGet data name with
  | none => { iss with missing := iss.missing ++ [name] }
  | some v =>
    let ok :=
      if (name = "hash" ∨ name = "version") ∧ kind = "embedded" then
        true  -- the relaxed rule `isinstance(v, str)` accepts every string
      else
        checkRule name v
    if ok then iss else { iss with malformed := iss.malformed ++ [name] }

/-- `Receipt.find_issues(data)`. -/
def find_issues (data : List (String × String)) : Issues :=
  let kind := (pyGet data "kind").getD "embedded"
  let unknown := (data.map Prod.fst).filter (fun n => !rulesKeys.contains n)
  rulesKeys.foldl (issueStep data kind) { missing := [], unknown := unknown, malformed := [] }

/-- `Receipt`: the dataclass fields (`kind` is one of the two literals for
every receipt the code builds). -/
structure Receipt where
  schema : String
  kind : String
  date : PyDateTime
  algo : String
  hash : String
  receipt_url : String
  release_url : String
  version : String
deriving DecidableEq, Repr

/-- `Receipt.asdict()`: the serialized JSON object, keys in source order. -/
def Receipt.asdict (r : Receipt) : List (String × String) :=
  [("$schema", r.schema),
   ("kind", r.kind),
   ("date", isoformat19 r.date ++ "Z"),
   ("algo", r.algo),
   ("hash", r.hash),
   ("receipt_url", r.receipt_url),
   ("release_url", r.release_url),
   ("version", r.version)]

/-- `Receipt.is_newer(other)`: strict `>` on dates. -/
def Receipt.is_newer (self other : Receipt) : Bool :=
  PyDateTime.ltb other.date self.date

/-- A Python `ValueError` as raised by `Receipt.from_dict`: either the
explicit `("Invalid receipt", issues)` or a `datetime.fromisoformat`
failure on an in-pattern but out-of-range date. -/
inductive PyError where
  | valueErrorInvalid (issues : Issues)
  | valueErrorDate
deriving DecidableEq, Repr

/-- The digit value of a character. -/
def digitVal (c : Char) : Nat := c.toNat - 48

/-- `datetime.fromisoformat(s.replace("Z", "+00:00"))` on the strings
`from_dict` feeds it: every such string already matched `RECEIPT_DATE`, whose
single `Z` is terminal, so the composition parses `YYYY-MM-DDTHH:MM:SSZ`
and enforces the `datetime` range checks. -/
def parseReceiptDate (s : String) : Option PyDateTime :=
  match s.toList with
  | [y1, y2, y3, y4, s1, m1, m2, s2, d1, d2, t, h1, h2, c1, n1, n2, c2, e1, e2, z] =>
    if isDigitChar y1 && isDigitChar y2 && isDigitChar y3 && isDigitChar y4 &&
        s1 = '-' && isDigitChar m1 && isDigitChar m2 && s2 = '-' &&
        isDigitChar d1 && isDigitChar d2 && t = 'T' &&
        isDigitChar h1 && isDigitChar h2 && c1 = ':' &&
        isDigitChar n1 && isDigitChar n2 && c2 = ':' &&
        isDigitChar e1 && isDigitChar e2 && z = 'Z' then
      let year := ((digitVal y1 * 10 + digitVal y2) * 10 + digitVal y3) * 10 + digitVal y4
      let month := digitVal m1 * 10 + digitVal m2
      let day := digitVal d1 * 10 + digitVal d2
      let hour := digitVal h1 * 10 + digitVal h2
      let minute := digitVal n1 * 10 + digitVal n2
      let second := digitVal e1 * 10 + digitVal e2
      if 1 ≤ year ∧ 1 ≤ month ∧ month ≤ 12 ∧ 1 ≤ day ∧ day ≤ daysInMonth year month ∧
          hour ≤ 23 ∧ minute ≤ 59 ∧ second ≤ 59 then
        some ⟨year, month, day, hour, minute, second, 0⟩
      else
        none
    else
      none
  | _ => none

/-- `Receipt.from_dict(data)`: validate, then reconstruct the record.  When
validation passes, no field is missing, so every lookup succeeds; the final
catch-all branch is unreachable. -/
def Receipt.from_dict (data : List (String × String)) : Except PyError Receipt :=
  let issues := find_issues data
  if ¬ (issues.missing.isEmpty && issues.unknown.isEmpty && issues.malformed.isEmpty) then
    .error (.valueErrorInvalid issues)
  else
    match pyGet data "$schema", pyGet data "kind", pyGet data "date", pyGet data "algo",
        pyGet data "hash", pyGet data "receipt_url", pyGet data "release_url",
        pyGet data "version" with
    | some schema, some kindv, some dateStr, some algo, some hashv, some rurl,
        some relurl, some ver =>
      match parseReceiptDate dateStr with
      | some date =>
        .ok ⟨schema, if kindv = "published" then "published" else "embedded",
          date, algo, hashv, rurl, relurl, ver⟩
      | none => .error .valueErrorDate
    | _, _, _, _, _, _, _, _ => .error .valueErrorDate

/-! ## `downloader.py`: streaming download with progress display -/

namespace Downloader

/-- The chunks `while chunk := response.read(CHUNK_SIZE)` actually consumes:
everything up to the first empty read. -/
def readChunks (reads : List (List Nat)) : List (List Nat) :=
  reads.takeWhile (fun c => !c.isEmpty)

/-- The loop of `downloader.progress`: for every chunk it first evaluates
`percent = done / total * 100` — a `ZeroDivisionError` when `total = 0` —
and then yields the chunk. -/
def progressLoop (total : Nat) : List (List Nat) → Except Unit (List (List Nat))
  | [] => .ok []
  | c :: cs =>
    if total = 0 then .error ()
    else
      match progressLoop total cs with
      | .ok ys => .ok (c :: ys)
      | .error e => .error e

/-- `downloader.progress(response)`: `total` is
`int((response.getheader("Content-Length") or "0").strip())`, so a missing
(or empty) header gives `total = 0`. -/
def progress (contentLength : Option Nat) (reads : List (List Nat)) :
    Except Unit (List (List Nat)) :=
  progressLoop (contentLength.getD 0) (readChunks reads)

/-- `downloader.download_and_hash(url, path, algo)`: drain `progress`,
hashing and writing each chunk; returns the hex digest and the bytes
written.  `hashFn` abstracts `hashlib.new(algo).hexdigest()`. -/
def download_and_hash (hashFn : String → List Nat → String) (algo : String)
    (contentLength : Option Nat) (reads : List (List Nat)) :
    Except Unit (String × List Nat) :=
  match progress contentLength reads with
  | .error e => .error e
  | .ok chunks => .ok (hashFn algo chunks.flatten, chunks.flatten)

end Downloader

/-! ## `updater.py`: the self-update coordinator

The transport is an oracle: for each URL the world fixes the outcome of the
fetch — an HTTP error status (surfaced as `urllib.error.HTTPError`) or the
payload.  The filesystem tracks the bytes of the live artifact and whether
the temporary download file exists.  `updater.py`'s own `download_and_hash`
reads chunks directly (no `progress` generator). -/

namespace Updater

/-- An exception escaping or crossing a coordinator boundary:
`urllib.error.HTTPError` or a `ValueError` from `Receipt.from_dict`. -/
inductive UpdError where
  | httpError (code : Nat)
  | valueError (e : PyError)
deriving DecidableEq, Repr

/-- The inputs of one self-update run. -/
structure World where
  /-- `json.loads(f.read(PATH_RECEIPT))`: the embedded receipt object. -/
  embeddedData : List (String × String)
  /-- Fetching a receipt URL: HTTP status error, or the JSON object served. -/
  receiptFetch : String → Except Nat (List (String × String))
  /-- Fetching a release URL: HTTP status error, or the bytes served. -/
  releaseFetch : String → Except Nat (List Nat)
  /-- `ENV.get("RECEIPT_URL")`. -/
  envReceiptUrl : Option String
  /-- `ENV.get("RELEASE_URL")`. -/
  envReleaseUrl : Option String

/-- The files self-update touches: the live artifact at `path` and the
temporary download file. -/
structure FS where
  artifact : List Nat
  temp : Option (List Nat)
deriving DecidableEq, Repr

/-- `Receipt.from_url(url)`: fetch, then `from_dict` (which raises
`ValueError` on an invalid payload). -/
def from_url (w : World) (url : String) : Except UpdError Receipt :=
  match w.receiptFetch url with
  | .error code => .error (.httpError code)
  | .ok data =>
    match Receipt.from_dict data with
    | .error e => .error (.valueError e)
    | .ok r => .ok r

/-- `updater.download_receipt(url)`: `except HTTPError` is the only handler,
so an HTTP failure becomes `None` while a `ValueError` from `from_dict`
propagates. -/
def download_receipt (w : World) (url : String) : Except UpdError (Option Receipt) :=
  match from_url w url with
  | .error (.httpError _) => .ok none
  | .error e => .error e
  | .ok r => .ok (some r)

/-- `updater.download_release(url, path, expected, algo)`: download to a
temporary file while hashing; on `HTTPError` return `None` (the temporary
file stays on disk — its partially written content is not tracked); on a
digest mismatch unlink the temporary file and return `None`; on a match
move the temporary file onto the artifact.  `hashFn` abstracts
`hashlib.new(algo)` over the downloaded bytes. -/
def download_release (hashFn : String → List Nat → String) (w : World)
    (url expected algo : String) (fs : FS) : Option Unit × FS :=
  match w.releaseFetch url with
  | .error _ => (none, { fs with temp := some [] })
  | .ok bytes =>
    let received := hashFn algo bytes
    if ¬ received = expected then
      (none, { fs with temp := none })
    else
      (some (), { fs with temp := none, artifact := bytes })

/-- `updater.self_update(path)`: read and parse the embedded receipt (a
failure here escapes), resolve the receipt URL, fetch the published receipt,
compare dates, then download and verify the release.  Returns the process
result code and the final filesystem. -/
def self_update (hashFn : String → List Nat → String) (w : World) (fs : FS) :
    Except UpdError (Nat × FS) :=
  match Receipt.from_dict w.embeddedData with
  | .error e => .error (.valueError e)
  | .ok localR =>
    let url := w.envReceiptUrl.getD localR.receipt_url
    match download_receipt w url with
    | .error e => .error e
    | .ok none => .ok (1, fs)
    | .ok (some remote) =>
      if ¬ remote.is_newer localR then .ok (0, fs)
      else
        let url2 := w.envReleaseUrl.getD remote.release_url
        match download_release hashFn w url2 remote.hash remote.algo fs with
        | (none, fs1) => .ok (1, fs1)
        | (some _, fs1) => .ok (0, fs1)

end Updater

/-! ## Derived predicates used to state the validation theorems -/

/-- Field `n` lands in `missing`: it has no entry in the payload. -/
def isMissingAt (data : List (String × String)) (n : String) : Bool :=
  (pyGet data n).isNone

/-- Field `n` lands in `malformed`: present, but its effective rule (the
relaxed one for `hash`/`version` under kind `embedded`) rejects the value. -/
def isMalformedAt (data : List (String × String)) (kind n : String) : Bool :=
  match pyGet data n with
  | none => false
  | some v =>
    if (n = "hash" ∨ n = "version") ∧ kind = "embedded" then false
    else !checkRule n v

/-- A receipt that passes validation although its date carries microseconds
(`datetime.now()` does): serialization truncates `isoformat()` to 19
characters, so the round trip loses the sub-second part. -/
def microReceipt : Receipt :=
  { schema := RECEIPT_SCHEMA, kind := "embedded",
    date := ⟨2000, 1, 1, 0, 0, 0, 500000⟩,
    algo := "sha256", hash := "",
    receipt_url := "http://example.com/r.json",
    release_url := "http://example.com/app", version := "" }

/-- An open-for-append archive holding two adjacent members whose names both
match the glob `a*` (C2 failing input). -/
def adjacentGlobArchive : ZState :=
  { mode := "a", fpOpen := true, writing := false,
    filelist := [⟨"a1", 0⟩, ⟨"a2", 10⟩],
    nameToInfo := [("a1", ⟨"a1", 0⟩), ("a2", ⟨"a2", 10⟩)],
    start_dir := 20,
    data := List.range 25 }

/-- A well-formed three-member archive used to witness the removal
theorems. -/
def threeMemberArchive : ZState :=
  { mode := "a", fpOpen := true, writing := false,
    filelist := [⟨"alpha", 0⟩, ⟨"beta", 10⟩, ⟨"gamma", 25⟩],
    nameToInfo := [("alpha", ⟨"alpha", 0⟩), ("beta", ⟨"beta", 10⟩),
      ("gamma", ⟨"gamma", 25⟩)],
    start_dir := 40,
    data := List.range 45 }

/-- A concrete valid embedded receipt payload. -/
def embPayload : List (String × String) :=
  [("$schema", RECEIPT_SCHEMA), ("kind", "embedded"), ("date", "2000-01-01T00:00:00Z"),
   ("algo", "sha256"), ("hash", "aa"), ("receipt_url", "http://example.com/r.json"),
   ("release_url", "http://example.com/app"), ("version", "1.0.0")]

/-- The receipt `embPayload` deserializes to. -/
def embReceipt : Receipt :=
  { schema := RECEIPT_SCHEMA, kind := "embedded", date := ⟨2000, 1, 1, 0, 0, 0, 0⟩,
    algo := "sha256", hash := "aa", receipt_url := "http://example.com/r.json",
    release_url := "http://example.com/app", version := "1.0.0" }

/-- A concrete valid published receipt payload, one day newer than
`embPayload` and expecting digest `123456`. -/
def pubPayload : List (String × String) :=
  [("$schema", RECEIPT_SCHEMA), ("kind", "published"), ("date", "2000-01-02T00:00:00Z"),
   ("algo", "sha256"), ("hash", "123456"), ("receipt_url", "http://example.com/r.json"),
   ("release_url", "http://example.com/app"), ("version", "1.0.1")]

/-- C4 counterexample world: the embedded receipt is valid, the receipt URL
serves HTTP 200 with an empty JSON object (an invalid receipt). -/
def invalidRemoteWorld : Updater.World :=
  { embeddedData := embPayload,
    receiptFetch := fun _ => .ok [],
    releaseFetch := fun _ => .error 500,
    envReceiptUrl := none, envReleaseUrl := none }

/-- C4 witness world: the receipt fetch fails with HTTP 404. -/
def http404World : Updater.World :=
  { embeddedData := embPayload,
    receiptFetch := fun _ => .error 404,
    releaseFetch := fun _ => .error 404,
    envReceiptUrl := none, envReleaseUrl := none }

/-- C5 witness world: a newer published receipt, and a release download
whose bytes will hash to something other than the expected `123456`. -/
def mismatchWorld : Updater.World :=
  { embeddedData := embPayload,
    receiptFetch := fun _ => .ok pubPayload,
    releaseFetch := fun _ => .ok [1, 2, 3],
    envReceiptUrl := none, envReleaseUrl := none }

end Cosmofy

namespace Cosmofy

/-! ## Rendering and parsing of receipt dates -/

theorem isDigitChar_digitChar (n : Nat) : isDigitChar (digitChar n) = true := by
  unfold digitChar
  have h : n % 10 < 10 := Nat.mod_lt _ (by norm_num)
  generalize n % 10 = k at h ⊢
  interval_cases k <;> decide

theorem digitVal_digitChar (n : Nat) : digitVal (digitChar n) = n % 10 := by
  unfold digitChar digitVal
  have h : n % 10 < 10 := Nat.mod_lt _ (by norm_num)
  generalize n % 10 = k at h ⊢
  interval_cases k <;> decide

theorem isoformat19_toList (d : PyDateTime) :
    (isoformat19 d ++ "Z").toList =
      [digitChar (d.year / 1000), digitChar (d.year / 100), digitChar (d.year / 10),
       digitChar d.year, '-', digitChar (d.month / 10), digitChar d.month, '-',
       digitChar (d.day / 10), digitChar d.day, 'T',
       digitChar (d.hour / 10), digitChar d.hour, ':',
       digitChar (d.minute / 10), digitChar d.minute, ':',
       digitChar (d.second / 10), digitChar d.second, 'Z'] := by
  show ((isoformat19 d).data ++ "Z".data) = _
  simp [isoformat19, pad4, pad2]

/-- Every rendered receipt date matches `RECEIPT_DATE`. -/
theorem dateCheck_render (d : PyDateTime) : dateCheck (isoformat19 d ++ "Z") = true := by
  unfold dateCheck
  rw [isoformat19_toList]
  simp [isDigitChar_digitChar]

/-- Parsing inverts rendering on really-constructible datetimes with whole
seconds. -/
theorem parseReceiptDate_render (d : PyDateTime) (hd : d.valid)
    (hus : d.microsecond = 0) : parseReceiptDate (isoformat19 d ++ "Z") = some d := by
  obtain ⟨h1, h2, h3, h4, h5, h6, h7, h8, h9, _⟩ := hd
  unfold parseReceiptDate
  rw [isoformat19_toList]
  dsimp only
  rw [if_pos (by simp [isDigitChar_digitChar])]
  have hyear :
      ((digitVal (digitChar (d.year / 1000)) * 10 + digitVal (digitChar (d.year / 100))) * 10 +
          digitVal (digitChar (d.year / 10))) * 10 + digitVal (digitChar d.year) = d.year := by
    simp only [digitVal_digitChar]; omega
  have hmonth :
      digitVal (digitChar (d.month / 10)) * 10 + digitVal (digitChar d.month) = d.month := by
    simp only [digitVal_digitChar]; omega
  have hdm : daysInMonth d.year d.month ≤ 31 := by
    unfold daysInMonth
    split
    · split <;> omega
    · split <;> omega
  have hday : digitVal (digitChar (d.day / 10)) * 10 + digitVal (digitChar d.day) = d.day := by
    simp only [digitVal_digitChar]; omega
  have hhour :
      digitVal (digitChar (d.hour / 10)) * 10 + digitVal (digitChar d.hour) = d.hour := by
    simp only [digitVal_digitChar]; omega
  have hminute :
      digitVal (digitChar (d.minute / 10)) * 10 + digitVal (digitChar d.minute) = d.minute := by
    simp only [digitVal_digitChar]; omega
  have hsecond :
      digitVal (digitChar (d.second / 10)) * 10 + digitVal (digitChar d.second) = d.second := by
    simp only [digitVal_digitChar]; omega
  rw [hyear, hmonth, hday, hhour, hminute, hsecond]
  rw [if_pos ⟨h1, h3, h4, h5, h6, h7, h8, h9⟩]
  cases d
  simp_all

/-! ## Theorems: the validation report -/

theorem issueStep_missing (data : List (String × String)) (kind n : String)
    (iss : Issues) (h : isMissingAt data n = true) :
    issueStep data kind iss n = { iss with missing := iss.missing ++ [n] } := by
  unfold issueStep
  unfold isMissingAt at h
  cases hg : pyGet data n with
  | none => simp
  | some v => rw [hg] at h; simp at h

theorem issueStep_malformed (data : List (String × String)) (kind n : String)
    (iss : Issues) (h : isMalformedAt data kind n = true) :
    issueStep data kind iss n = { iss with malformed := iss.malformed ++ [n] } := by
  unfold issueStep
  unfold isMalformedAt at h
  cases hg : pyGet data n with
  | none => rw [hg] at h; simp at h
  | some v =>
    rw [hg] at h
    dsimp only at h ⊢
    by_cases hrel : (n = "hash" ∨ n = "version") ∧ kind = "embedded"
    · rw [if_pos hrel] at h; simp at h
    · rw [if_neg hrel] at h
      rw [if_neg hrel]
      simp only [Bool.not_eq_true'] at h
      simp [h]

theorem issueStep_ok (data : List (String × String)) (kind n : String)
    (iss : Issues) (h1 : isMissingAt data n = false)
    (h2 : isMalformedAt data kind n = false) :
    issueStep data kind iss n = iss := by
  unfold issueStep
  unfold isMissingAt at h1
  unfold isMalformedAt at h2
  cases hg : pyGet data n with
  | none => rw [hg] at h1; simp at h1
  | some v =>
    rw [hg] at h2
    dsimp only at h2 ⊢
    by_cases hrel : (n = "hash" ∨ n = "version") ∧ kind = "embedded"
    · rw [if_pos hrel]; simp
    · rw [if_neg hrel] at h2
      rw [if_neg hrel]
      simp only [Bool.not_eq_false'] at h2
      simp [h2]

theorem foldl_issueStep (data : List (String × String)) (kind : String) :
    ∀ (names : List String) (iss : Issues),
      names.foldl (issueStep data kind) iss =
        { iss with
          missing := iss.missing ++ names.filter (isMissingAt data),
          malformed := iss.malformed ++ names.filter (isMalformedAt data kind) }
  | [], iss => by simp
  | n :: names, iss => by
    rw [List.foldl_cons, foldl_issueStep data kind names]
    by_cases h1 : isMissingAt data n = true
    · have h2 : isMalformedAt data kind n = false := by
        unfold isMissingAt at h1
        unfold isMalformedAt
        cases hg : pyGet data n with
        | none => simp
        | some v => rw [hg] at h1; simp at h1
      rw [issueStep_missing data kind n iss h1]
      simp [List.filter_cons, h1, h2]
    · have h1f : isMissingAt data n = false := by
        cases hv : isMissingAt data n with
        | false => rfl
        | true => exact absurd hv h1
      by_cases h2 : isMalformedAt data kind n = true
      · rw [issueStep_malformed data kind n iss h2]
        simp [List.filter_cons, h1f, h2]
      · have h2f : isMalformedAt data kind n = false := by
          cases hv : isMalformedAt data kind n with
          | false => rfl
          | true => exact absurd hv h2
        rw [issueStep_ok data kind n iss h1f h2f]
        simp [List.filter_cons, h1f, h2f]

/-- Closed form of `find_issues`: each report set is a filter. -/
theorem find_issues_eq (data : List (String × String)) :
    find_issues data =
      { missing := rulesKeys.filter (isMissingAt data),
        unknown := (data.map Prod.fst).filter (fun n => !rulesKeys.contains n),
        malformed :=
          rulesKeys.filter (isMalformedAt data ((pyGet data "kind").getD "embedded")) } := by
  unfold find_issues
  rw [foldl_issueStep]
  simp

/-- C10 — a payload without a `kind` key is validated with the relaxed
(embedded) rules for `hash` and `version`, while `kind` itself is reported
missing; present `hash`/`version` values are accepted whatever they are. -/
theorem c10_kindless_payload_relaxed (data : List (String × String)) (vh vv : String)
    (hk : pyGet data "kind" = none)
    (hh : pyGet data "hash" = some vh) (hv : pyGet data "version" = some vv) :
    "kind" ∈ (find_issues data).missing ∧
      ¬ "hash" ∈ (find_issues data).missing ∧
      ¬ "hash" ∈ (find_issues data).malformed ∧
      ¬ "version" ∈ (find_issues data).missing ∧
      ¬ "version" ∈ (find_issues data).malformed := by
  rw [find_issues_eq]
  rw [hk]
  simp only [Option.getD_none]
  refine ⟨?_, ?_, ?_, ?_, ?_⟩
  · rw [List.mem_filter]
    exact ⟨by simp [rulesKeys], by simp [isMissingAt, hk]⟩
  · rw [List.mem_filter]
    intro h
    have := h.2
    simp [isMissingAt, hh] at this
  · rw [List.mem_filter]
    intro h
    have := h.2
    simp [isMalformedAt, hh] at this
  · rw [List.mem_filter]
    intro h
    have := h.2
    simp [isMissingAt, hv] at this
  · rw [List.mem_filter]
    intro h
    have := h.2
    simp [isMalformedAt, hv] at this

/-! ## Theorems: serialization round trip (C3) -/

/-- C3 counterexample — `microReceipt` is valid, yet deserializing its
serialized form does not reproduce it (the date's microseconds are lost). -/
theorem c3_roundtrip_counterexample :
    find_issues microReceipt.asdict = ⟨[], [], []⟩ ∧
      ¬ Receipt.from_dict microReceipt.asdict = Except.ok microReceipt := by
  decide

/-- C3 amended — for a valid receipt whose date is a whole-second UTC
datetime, deserialization inverts serialization field for field, and
serialization emits the keys in the fixed source order. -/
theorem c3_roundtrip (r : Receipt)
    (hvalid : find_issues r.asdict = ⟨[], [], []⟩)
    (hdate : r.date.valid) (hus : r.date.microsecond = 0) :
    Receipt.from_dict r.asdict = Except.ok r ∧
      r.asdict.map Prod.fst =
        ["$schema", "kind", "date", "algo", "hash", "receipt_url", "release_url", "version"] := by
  refine ⟨?_, rfl⟩
  have hkindck : checkRule "kind" r.kind = true := by
    have hmal := congrArg Issues.malformed hvalid
    rw [find_issues_eq] at hmal
    dsimp only at hmal
    rw [List.filter_eq_nil_iff] at hmal
    have hk := hmal "kind" (by decide)
    unfold isMalformedAt at hk
    have hg : pyGet r.asdict "kind" = some r.kind := rfl
    rw [hg] at hk
    dsimp only at hk
    rw [if_neg (fun hc => by rcases hc.1 with h | h <;> exact absurd h (by decide))] at hk
    simpa using hk
  have hkind : (if r.kind = "published" then "published" else "embedded") = r.kind := by
    unfold checkRule at hkindck
    rw [if_neg (by decide), if_pos rfl] at hkindck
    simp only [Bool.or_eq_true, decide_eq_true_eq] at hkindck
    by_cases hp : r.kind = "published"
    · rw [if_pos hp, hp]
    · rw [if_neg hp]
      rcases hkindck with h | h
      · rw [h]
      · exact absurd h hp
  show Receipt.from_dict r.asdict = Except.ok r
  unfold Receipt.from_dict
  rw [hvalid]
  rw [if_neg (by decide)]
  have h1 : pyGet r.asdict "$schema" = some r.schema := rfl
  have h2 : pyGet r.asdict "kind" = some r.kind := rfl
  have h3 : pyGet r.asdict "date" = some (isoformat19 r.date ++ "Z") := rfl
  have h4 : pyGet r.asdict "algo" = some r.algo := rfl
  have h5 : pyGet r.asdict "hash" = some r.hash := rfl
  have h6 : pyGet r.asdict "receipt_url" = some r.receipt_url := rfl
  have h7 : pyGet r.asdict "release_url" = some r.release_url := rfl
  have h8 : pyGet r.asdict "version" = some r.version := rfl
  rw [h1, h2, h3, h4, h5, h6, h7, h8]
  dsimp only
  rw [parseReceiptDate_render r.date hdate hus]
  rw [hkind]

/-- C3 witness for the amended round trip. -/
theorem c3_roundtrip_witness :
    Receipt.from_dict (Receipt.asdict
        ⟨RECEIPT_SCHEMA, "published", ⟨2024, 2, 29, 23, 59, 59, 0⟩, "sha256",
          "00ff", "http://example.com/r.json", "http://example.com/app", "1.2.3"⟩) =
      Except.ok
        ⟨RECEIPT_SCHEMA, "published", ⟨2024, 2, 29, 23, 59, 59, 0⟩, "sha256",
          "00ff", "http://example.com/r.json", "http://example.com/app", "1.2.3"⟩ :=
  (c3_roundtrip
    ⟨RECEIPT_SCHEMA, "published", ⟨2024, 2, 29, 23, 59, 59, 0⟩, "sha256",
      "00ff", "http://example.com/r.json", "http://example.com/app", "1.2.3"⟩
    (by decide) (by decide) (by decide)).1


/-- C7 — a default embedded receipt whose `receipt_url`/`release_url` are
empty fails validation with exactly those two fields malformed, nothing
missing and nothing unknown; the `hash`/`version` rules are relaxed to "any
string" exactly when the payload's `kind` is `embedded`; every other rule is
a function of the field's own value only, independent of `kind`. -/
theorem c7_validation_rules (d : PyDateTime)
    (data : List (String × String)) (k vh vv n : String)
    (hk : pyGet data "kind" = some k)
    (hh : pyGet data "hash" = some vh)
    (hv : pyGet data "version" = some vv)
    (hn : n ∈ rulesKeys) (hn1 : ¬ n = "hash") (hn2 : ¬ n = "version") :
    find_issues (Receipt.asdict ⟨RECEIPT_SCHEMA, "embedded", d, "sha256", "", "", "", ""⟩) =
        ⟨[], [], ["receipt_url", "release_url"]⟩ ∧
      ("hash" ∈ (find_issues data).malformed ↔ ¬ k = "embedded" ∧ hashCheck vh = false) ∧
      ("version" ∈ (find_issues data).malformed ↔ ¬ k = "embedded" ∧ stripCheck vv = false) ∧
      (n ∈ (find_issues data).malformed ↔
        ∃ v, pyGet data n = some v ∧ checkRule n v = false) := by
  have hkind : (pyGet data "kind").getD "embedded" = k := by rw [hk]; rfl
  refine ⟨?_, ?_, ?_, ?_⟩
  · simp [find_issues, issueStep, rulesKeys, Receipt.asdict, pyGet, checkRule,
      dateCheck_render, stripCheck, algoCheck, hashCheck, isDigitChar]
  · rw [find_issues_eq, List.mem_filter]
    rw [hkind]
    unfold isMalformedAt
    rw [hh]
    by_cases hke : k = "embedded"
    · simp [hke, rulesKeys]
    · simp [hke, rulesKeys, checkRule]
  · rw [find_issues_eq, List.mem_filter]
    rw [hkind]
    unfold isMalformedAt
    rw [hv]
    by_cases hke : k = "embedded"
    · simp [hke, rulesKeys]
    · simp [hke, rulesKeys, checkRule]
  · rw [find_issues_eq, List.mem_filter]
    rw [hkind]
    unfold isMalformedAt
    have hrel : ¬ ((n = "hash" ∨ n = "version") ∧ k = "embedded") := by
      intro hc
      rcases hc.1 with h | h
      · exact hn1 h
      · exact hn2 h
    cases hg : pyGet data n with
    | none => simp [hg]
    | some v => simp [hn, hg, hrel, Bool.not_eq_true']

/-- C7 witness. -/
theorem c7_validation_rules_witness :
    (find_issues (Receipt.asdict
        ⟨RECEIPT_SCHEMA, "embedded", ⟨2024, 10, 20, 1, 2, 3, 0⟩, "sha256", "", "", "", ""⟩) =
      ⟨[], [], ["receipt_url", "release_url"]⟩) ∧
      ("hash" ∈ (find_issues [("kind", "published"), ("hash", "xyz"), ("version", "1.0")]).malformed ↔
        ¬ "published" = "embedded" ∧ hashCheck "xyz" = false) ∧
      ("version" ∈ (find_issues [("kind", "published"), ("hash", "xyz"), ("version", "1.0")]).malformed ↔
        ¬ "published" = "embedded" ∧ stripCheck "1.0" = false) ∧
      ("algo" ∈ (find_issues [("kind", "published"), ("hash", "xyz"), ("version", "1.0")]).malformed ↔
        ∃ v, pyGet [("kind", "published"), ("hash", "xyz"), ("version", "1.0")] "algo" = some v ∧
          checkRule "algo" v = false) :=
  c7_validation_rules ⟨2024, 10, 20, 1, 2, 3, 0⟩
    [("kind", "published"), ("hash", "xyz"), ("version", "1.0")]
    "published" "xyz" "1.0" "algo" (by decide) (by decide) (by decide)
    (by decide) (by decide) (by decide)

/-- C10 witness. -/
theorem c10_kindless_payload_relaxed_witness :
    pyGet [("hash", ""), ("version", "")] "kind" = none ∧
      "kind" ∈ (find_issues [("hash", ""), ("version", "")]).missing ∧
      ¬ "hash" ∈ (find_issues [("hash", ""), ("version", "")]).malformed := by
  have h := c10_kindless_payload_relaxed [("hash", ""), ("version", "")] "" ""
    (by decide) (by decide) (by decide)
  exact ⟨by decide, h.1, h.2.2.1⟩

/-! ## Theorems: glob removal (C2) -/

/-- C2 — with two adjacent members both matching `a*`, `remove("a*")`
removes only the first: the loop iterates `self.filelist` while
`_remove_member` deletes from that same list, so the element sliding into
the freed index is skipped and `a2` survives even though it matches. -/
theorem c2_glob_skips_adjacent_match :
    fnmatch "a1" "a*" = true ∧ fnmatch "a2" "a*" = true ∧
      (remove adjacentGlobArchive "a*").toOption.map
          (fun st => st.filelist.map Member.filename) = some ["a2"] := by
  decide

/-! ## Theorems: the self-update coordinator (C4, C5) -/

/-- C4 counterexample — the embedded receipt is valid, yet `self_update`
raises: the receipt URL serves a well-formed HTTP response whose JSON is an
invalid receipt, and `download_receipt` only catches `HTTPError`, so the
`ValueError` from `Receipt.from_dict` escapes. -/
theorem c4_counterexample :
    Receipt.from_dict invalidRemoteWorld.embeddedData = Except.ok embReceipt ∧
      Updater.self_update (fun _ _ => "") invalidRemoteWorld ⟨[7], none⟩ =
        Except.error (.valueError (.valueErrorInvalid ⟨rulesKeys, [], []⟩)) := by
  decide

/-- C4 amended — HTTP failures fetching the receipt or downloading the
release, and digest mismatches, are converted to the non-success result `1`
without an escaping exception; `self_update` raises only when the embedded
receipt is invalid or when the fetched published receipt payload is invalid. -/
theorem c4_recoverable_failures (hashFn : String → List Nat → String)
    (w : Updater.World) (fs : Updater.FS) (localR : Receipt)
    (hemb : Receipt.from_dict w.embeddedData = Except.ok localR) :
    ((∀ c, w.receiptFetch (w.envReceiptUrl.getD localR.receipt_url) = .error c →
        Updater.self_update hashFn w fs = .ok (1, fs)) ∧
      (∀ e, Updater.self_update hashFn w fs = .error e →
        ∃ d pe, w.receiptFetch (w.envReceiptUrl.getD localR.receipt_url) = .ok d ∧
          Receipt.from_dict d = .error pe ∧ e = .valueError pe) ∧
      (∀ d remote, w.receiptFetch (w.envReceiptUrl.getD localR.receipt_url) = .ok d →
        Receipt.from_dict d = .ok remote → remote.is_newer localR = true →
        ((∀ c, w.releaseFetch (w.envReleaseUrl.getD remote.release_url) = .error c →
            Updater.self_update hashFn w fs = .ok (1, { fs with temp := some [] })) ∧
          (∀ bytes, w.releaseFetch (w.envReleaseUrl.getD remote.release_url) = .ok bytes →
            ¬ hashFn remote.algo bytes = remote.hash →
            Updater.self_update hashFn w fs = .ok (1, { fs with temp := none }))))) := by
  unfold Updater.self_update
  rw [hemb]
  dsimp only
  refine ⟨?_, ?_, ?_⟩
  · intro c hc
    unfold Updater.download_receipt Updater.from_url
    rw [hc]
  · intro e he
    unfold Updater.download_receipt Updater.from_url at he
    cases hrf : w.receiptFetch (w.envReceiptUrl.getD localR.receipt_url) with
    | error c => rw [hrf] at he; exact absurd he (by simp)
    | ok d =>
      rw [hrf] at he
      dsimp only at he
      cases hfd : Receipt.from_dict d with
      | error pe =>
        rw [hfd] at he
        dsimp only at he
        have he2 : (Except.error (Updater.UpdError.valueError pe) :
            Except Updater.UpdError (Nat × Updater.FS)) = Except.error e := he
        refine ⟨d, pe, rfl, hfd, ?_⟩
        injection he2 with h
        exact h.symm
      | ok remote =>
        rw [hfd] at he
        dsimp only at he
        by_cases hnew : remote.is_newer localR = true
        · rw [if_neg (not_not_intro hnew)] at he
          cases hdr : Updater.download_release hashFn w
              (w.envReleaseUrl.getD remote.release_url) remote.hash remote.algo fs with
          | mk res fs1 =>
            rw [hdr] at he
            cases res <;> simp at he
        · rw [if_pos hnew] at he
          simp at he
  · intro d remote hrf hfd hnew
    unfold Updater.download_receipt Updater.from_url
    rw [hrf]
    dsimp only
    rw [hfd]
    dsimp only
    rw [if_neg (not_not_intro hnew)]
    constructor
    · intro c hc
      unfold Updater.download_release
      rw [hc]
    · intro bytes hb hmm
      unfold Updater.download_release
      rw [hb]
      dsimp only
      rw [if_pos hmm]

/-- C4 witness: with a valid embedded receipt and a 404 on the receipt URL,
`self_update` returns `1` and raises nothing. -/
theorem c4_recoverable_failures_witness :
    Updater.self_update (fun _ _ => "") http404World ⟨[7], none⟩ =
      Except.ok (1, ⟨[7], none⟩) :=
  (c4_recoverable_failures (fun _ _ => "") http404World ⟨[7], none⟩ embReceipt
    (by decide)).1 404 rfl

/-- C5 — when the downloaded release's digest differs from the published
expected digest, `self_update` returns `1` (no exception), the live
artifact's bytes are untouched, and the temporary file is unlinked. -/
theorem c5_hash_mismatch_aborts (hashFn : String → List Nat → String)
    (w : Updater.World) (fs : Updater.FS) (localR remote : Receipt)
    (d : List (String × String)) (bytes : List Nat)
    (hemb : Receipt.from_dict w.embeddedData = Except.ok localR)
    (hrf : w.receiptFetch (w.envReceiptUrl.getD localR.receipt_url) = .ok d)
    (hfd : Receipt.from_dict d = Except.ok remote)
    (hnew : remote.is_newer localR = true)
    (hrel : w.releaseFetch (w.envReleaseUrl.getD remote.release_url) = .ok bytes)
    (hmm : ¬ hashFn remote.algo bytes = remote.hash) :
    Updater.self_update hashFn w fs = Except.ok (1, ⟨fs.artifact, none⟩) := by
  unfold Updater.self_update Updater.download_receipt Updater.from_url
    Updater.download_release
  rw [hemb]
  dsimp only
  rw [hrf]
  dsimp only
  rw [hfd]
  dsimp only
  rw [if_neg (not_not_intro hnew)]
  rw [hrel]
  dsimp only
  rw [if_pos hmm]

/-- C5 witness: a concrete mismatching download leaves the artifact `[7]`
in place, deletes the temporary file and returns `1`. -/
theorem c5_hash_mismatch_aborts_witness :
    Updater.self_update (fun _ _ => "deadbeef") mismatchWorld ⟨[7], some [9]⟩ =
      Except.ok (1, ⟨[7], none⟩) :=
  c5_hash_mismatch_aborts (fun _ _ => "deadbeef") mismatchWorld ⟨[7], some [9]⟩
    embReceipt
    ⟨RECEIPT_SCHEMA, "published", ⟨2000, 1, 2, 0, 0, 0, 0⟩, "sha256", "123456",
      "http://example.com/r.json", "http://example.com/app", "1.0.1"⟩
    pubPayload [1, 2, 3]
    (by decide) rfl (by decide) (by decide) rfl (by decide)

/-! ## Theorems: download progress (C8) -/

/-- C8 — when the declared content length is absent, `progress` defaults the
total to `0` and then evaluates `done / total * 100` on the first chunk: a
`ZeroDivisionError`, not a disabled percentage display.  With a declared
length the stream is passed through and hashed. -/
theorem c8_progress_division_by_zero :
    Downloader.progress none [[120]] = Except.error () ∧
      Downloader.download_and_hash (fun _ _ => "") "sha256" none [[120]] = Except.error () ∧
      Downloader.progress (some 1) [[120]] = Except.ok [[120]] := by
  decide

/-! ## Theorems: archive removal (C1, C6, C9)

The structural lemmas about `_remove_member`: the sorted traversal splits at
the removed member, every later entry is shifted by the removed member's
span, and `entry_offset` finishes equal to that span. -/

theorem removeLoop_skip (member : Member) (sd : Nat) :
    ∀ (A rest : List Member) (eo : Nat) (buf : List Nat),
      (∀ a ∈ A, a.header_offset < member.header_offset) →
      removeLoop member sd (A ++ rest) eo buf = removeLoop member sd rest eo buf
  | [], _, _, _, _ => rfl
  | a :: A, rest, eo, buf, h => by
    rw [List.cons_append]
    show removeLoop member sd (a :: (A ++ rest)) eo buf = _
    simp only [removeLoop]
    rw [if_pos (h a (by simp))]
    exact removeLoop_skip member sd A rest eo buf (fun x hx => h x (by simp [hx]))

theorem removeLoop_cons_member (member : Member) (sd : Nat) (B : List Member)
    (eo : Nat) (buf : List Nat) :
    removeLoop member sd (member :: B) eo buf =
      removeLoop member sd B (spanAt sd member B) buf := by
  cases B with
  | nil => simp [removeLoop, spanAt]
  | cons b B2 => simp [removeLoop, spanAt]

theorem removeLoop_shift (member : Member) (sd : Nat) :
    ∀ (B : List Member) (eo : Nat) (buf : List Nat),
      (∀ b ∈ B, member.header_offset < b.header_offset) →
      (removeLoop member sd B eo buf).1 =
          B.map (fun b => (b, { b with header_offset := b.header_offset - eo })) ∧
        (removeLoop member sd B eo buf).2.1 = eo
  | [], _, _, _ => ⟨rfl, rfl⟩
  | b :: B, eo, buf, h => by
    have hb : member.header_offset < b.header_offset := h b (by simp)
    have hbm : ¬ b = member := by
      intro he
      rw [he] at hb
      exact lt_irrefl _ hb
    simp only [removeLoop]
    rw [if_neg (Nat.not_lt.mpr (Nat.le_of_lt hb)), if_neg hbm]
    constructor
    · simp only [List.map_cons]
      rw [(removeLoop_shift member sd B eo _ (fun x hx => h x (by simp [hx]))).1]
    · rw [(removeLoop_shift member sd B eo _ (fun x hx => h x (by simp [hx]))).2]

/-- Splitting the offset-sorted member list at the member being removed:
everything before lies strictly below it, everything after strictly above. -/
theorem sorted_split (st : ZState) (member : Member)
    (hmem : member ∈ st.filelist)
    (hdist : st.filelist.Pairwise (fun x y => ¬ x.header_offset = y.header_offset)) :
    ∃ A B, st.filelist.insertionSort memberLe = A ++ member :: B ∧
      (∀ a ∈ A, a.header_offset < member.header_offset) ∧
      (∀ b ∈ B, member.header_offset < b.header_offset) ∧
      B.Pairwise memberLe := by
  have hperm : List.Perm (st.filelist.insertionSort memberLe) st.filelist :=
    List.perm_insertionSort _ _
  have hmem2 : member ∈ st.filelist.insertionSort memberLe :=
    (List.mem_insertionSort _).mpr hmem
  obtain ⟨A, B, hAB⟩ := List.append_of_mem hmem2
  have hsorted : List.Sorted memberLe (st.filelist.insertionSort memberLe) :=
    List.sorted_insertionSort _ _
  have hdist2 : (st.filelist.insertionSort memberLe).Pairwise
      (fun x y => ¬ x.header_offset = y.header_offset) :=
    (hperm.pairwise_iff (fun h he => h he.symm)).mpr hdist
  rw [hAB] at hsorted hdist2
  have hs := List.pairwise_append.mp hsorted
  have hd := List.pairwise_append.mp hdist2
  refine ⟨A, B, hAB, ?_, ?_, (List.pairwise_cons.mp hs.2.1).2⟩
  · intro a ha
    have hle : memberLe a member := hs.2.2 a ha member (by simp)
    have hne : ¬ a.header_offset = member.header_offset := hd.2.2 a ha member (by simp)
    exact lt_of_le_of_ne hle hne
  · intro b hb
    have hle : memberLe member b := (List.pairwise_cons.mp hs.2.1).1 b hb
    have hne : ¬ member.header_offset = b.header_offset :=
      (List.pairwise_cons.mp hd.2.1).1 b hb
    exact lt_of_le_of_ne hle hne

theorem le_foldr_min : ∀ (l : List Nat) (init x : Nat),
    (∀ y ∈ l, x ≤ y) → x ≤ init → x ≤ l.foldr min init
  | [], _, _, _, hinit => hinit
  | a :: l, init, x, hl, hinit => by
    simp only [List.foldr_cons]
    exact le_min (hl a (by simp)) (le_foldr_min l init x (fun y hy => hl y (by simp [hy])) hinit)

theorem foldr_min_le_init : ∀ (l : List Nat) (init : Nat), l.foldr min init ≤ init
  | [], _ => le_refl _
  | a :: l, init => by
    simp only [List.foldr_cons]
    exact le_trans (min_le_right _ _) (foldr_min_le_init l init)

theorem foldr_min_le_mem : ∀ (l : List Nat) (init x : Nat), x ∈ l → l.foldr min init ≤ x
  | [], _, _, hx => absurd hx (by simp)
  | a :: l, init, x, hx => by
    simp only [List.foldr_cons]
    rcases List.mem_cons.mp hx with rfl | hx2
    · exact min_le_left _ _
    · exact le_trans (min_le_right _ _) (foldr_min_le_mem l init x hx2)

theorem foldr_min_eq : ∀ (l : List Nat) (init x : Nat),
    x ∈ l → (∀ y ∈ l, x ≤ y) → x ≤ init → l.foldr min init = x
  | [], _, _, hx, _, _ => absurd hx (by simp)
  | a :: l, init, x, hx, hlb, hinit => by
    simp only [List.foldr_cons]
    rcases List.mem_cons.mp hx with rfl | hx2
    · exact min_eq_left (le_foldr_min l init x (fun y hy => hlb y (by simp [hy])) hinit)
    · rw [foldr_min_eq l init x hx2 (fun y hy => hlb y (by simp [hy])) hinit]
      exact min_eq_right (hlb a (by simp))

/-- The code's `entry_size` at the removed member equals the claim's span
size, for a well-formed archive. -/
theorem spanAt_eq_spanSize (st : ZState) (member : Member) (A B : List Member)
    (hAB : st.filelist.insertionSort memberLe = A ++ member :: B)
    (hA : ∀ a ∈ A, a.header_offset < member.header_offset)
    (hB : ∀ b ∈ B, member.header_offset < b.header_offset)
    (hBs : B.Pairwise memberLe)
    (hsd : ∀ m ∈ st.filelist, m.header_offset ≤ st.start_dir) :
    spanAt st.start_dir member B = spanSize st member := by
  have hperm : List.Perm (st.filelist.insertionSort memberLe) st.filelist :=
    List.perm_insertionSort _ _
  have hmemsort : ∀ m : Member, m ∈ st.filelist ↔ m ∈ A ++ member :: B := by
    intro m
    rw [← hAB]
    exact (hperm.mem_iff).symm
  cases B with
  | nil =>
    unfold spanAt spanSize
    have hfilter : (st.filelist.map Member.header_offset).filter
        (fun o => member.header_offset < o) = [] := by
      rw [List.filter_eq_nil_iff]
      intro o ho
      obtain ⟨m, hm, rfl⟩ := List.mem_map.mp ho
      rcases (List.mem_append.mp ((hmemsort m).mp hm)) with h1 | h2
      · have := hA m h1
        simp only [decide_eq_true_eq]
        omega
      · have : m = member := by simpa using h2
        subst this
        simp
    rw [hfilter]
    rfl
  | cons b B2 =>
    unfold spanAt spanSize
    have hbmem : b ∈ st.filelist := (hmemsort b).mpr (by simp)
    have hmin : ((st.filelist.map Member.header_offset).filter
        (fun o => member.header_offset < o)).foldr min st.start_dir = b.header_offset := by
      apply foldr_min_eq
      · rw [List.mem_filter]
        refine ⟨List.mem_map_of_mem _ hbmem, ?_⟩
        simp only [decide_eq_true_eq]
        exact hB b (by simp)
      · intro o ho
        rw [List.mem_filter] at ho
        obtain ⟨m, hm, rfl⟩ := List.mem_map.mp ho.1
        have hlt : member.header_offset < m.header_offset := by
          have := ho.2
          simpa using this
        rcases (List.mem_append.mp ((hmemsort m).mp hm)) with h1 | h2
        · exact absurd hlt (by have := hA m h1; omega)
        · rcases (List.mem_cons.mp h2) with rfl | h3
          · exact absurd hlt (by omega)
          · rcases (List.mem_cons.mp h3) with rfl | h4
            · exact le_refl _
            · exact (List.pairwise_cons.mp hBs).1 m h4
      · exact hsd b hbmem
    rw [hmin]

theorem applyUpdates_nil (m : Member) : applyUpdates [] m = m := rfl

theorem applyUpdates_not_mem (pairs : List (Member × Member)) (m : Member)
    (h : ∀ p ∈ pairs, ¬ p.1 = m) : applyUpdates pairs m = m := by
  unfold applyUpdates
  rw [List.find?_eq_none.mpr (by intro p hp; simpa using h p hp)]

theorem applyUpdates_shift (member : Member) (S : Nat) :
    ∀ (B : List Member) (m : Member), m ∈ B →
      applyUpdates (B.map (fun b => (b, { b with header_offset := b.header_offset - S }))) m =
        { m with header_offset := m.header_offset - S }
  | [], m, hm => absurd hm (by simp)
  | b :: B, m, hm => by
    unfold applyUpdates
    by_cases hbm : b = m
    · subst hbm
      simp
    · rcases List.mem_cons.mp hm with rfl | hm2
      · exact absurd rfl hbm
      · simp only [List.map_cons, List.find?_cons]
        rw [show (decide (b = m)) = false by simpa using hbm]
        have := applyUpdates_shift member S B m hm2
        unfold applyUpdates at this
        exact this


/-- Characterization of `_remove_member` on a well-formed archive: members
after the removed one shift back by its span, the rest stay, and the
directory start drops by the span. -/
theorem removeMember_spec (st : ZState) (member : Member)
    (hmem : member ∈ st.filelist)
    (hdist : st.filelist.Pairwise (fun x y => ¬ x.header_offset = y.header_offset))
    (hsd : ∀ m ∈ st.filelist, m.header_offset ≤ st.start_dir) :
    (removeMember st member).filelist =
        (st.filelist.map (shiftAfter member (spanSize st member))).erase member ∧
      (removeMember st member).start_dir = st.start_dir - spanSize st member := by
  obtain ⟨A, B, hAB, hA, hB, hBs⟩ := sorted_split st member hmem hdist
  have hspan := spanAt_eq_spanSize st member A B hAB hA hB hBs hsd
  have hperm : List.Perm (st.filelist.insertionSort memberLe) st.filelist :=
    List.perm_insertionSort _ _
  have hloop : removeLoop member st.start_dir (st.filelist.insertionSort memberLe) 0 st.data
      = removeLoop member st.start_dir (member :: B) 0 st.data := by
    rw [hAB]
    exact removeLoop_skip member st.start_dir A (member :: B) 0 st.data hA
  have hcons := removeLoop_cons_member member st.start_dir B 0 st.data
  have hsh := removeLoop_shift member st.start_dir B (spanAt st.start_dir member B) st.data hB
  unfold removeMember
  constructor
  · dsimp only
    rw [hloop, hcons, hsh.1]
    apply congrArg (fun l => List.erase l member)
    apply List.map_congr_left
    intro m hm
    by_cases hlt : member.header_offset < m.header_offset
    · have hmB : m ∈ B := by
        have hmS : m ∈ A ++ member :: B := by
          rw [← hAB]
          exact (hperm.mem_iff).mpr hm
        rcases List.mem_append.mp hmS with h1 | h2
        · exact absurd hlt (by have := hA m h1; omega)
        · rcases List.mem_cons.mp h2 with rfl | h3
          · exact absurd hlt (lt_irrefl _)
          · exact h3
      rw [applyUpdates_shift member (spanAt st.start_dir member B) B m hmB]
      unfold shiftAfter
      rw [if_pos hlt, hspan]
    · rw [applyUpdates_not_mem _ m ?_]
      · unfold shiftAfter
        rw [if_neg hlt]
      · intro p hp
        obtain ⟨b, hbB, rfl⟩ := List.mem_map.mp hp
        intro hbm
        dsimp only at hbm
        rw [hbm] at hbB
        exact hlt (hB m hbB)
  · dsimp only
    rw [hloop, hcons, hsh.2, hspan]

/-- C1 — removing a member of span size `S` shifts the stored header offset
of every member physically after it down by exactly `S`, leaves earlier
members in place, and reduces the stored directory-start offset by exactly
`S`. -/
theorem c1_remove_shifts_by_span (st : ZState) (member : Member)
    (hmem : member ∈ st.filelist)
    (hdist : st.filelist.Pairwise (fun x y => ¬ x.header_offset = y.header_offset))
    (hsd : ∀ m ∈ st.filelist, m.header_offset ≤ st.start_dir) :
    (removeMember st member).start_dir + spanSize st member = st.start_dir ∧
      (removeMember st member).filelist =
        (st.filelist.map (shiftAfter member (spanSize st member))).erase member ∧
      (∀ m ∈ st.filelist, member.header_offset < m.header_offset →
        (shiftAfter member (spanSize st member) m).header_offset + spanSize st member
          = m.header_offset) := by
  obtain ⟨hfl, hsd2⟩ := removeMember_spec st member hmem hdist hsd
  refine ⟨?_, hfl, ?_⟩
  · rw [hsd2]
    have hS := foldr_min_le_init
      ((st.filelist.map Member.header_offset).filter (fun o => member.header_offset < o))
      st.start_dir
    unfold spanSize
    omega
  · intro m hm hlt
    unfold shiftAfter
    rw [if_pos hlt]
    have h1 : ((st.filelist.map Member.header_offset).filter
        (fun o => member.header_offset < o)).foldr min st.start_dir ≤ m.header_offset := by
      apply foldr_min_le_mem
      rw [List.mem_filter]
      exact ⟨List.mem_map_of_mem _ hm, by simpa using hlt⟩
    unfold spanSize
    dsimp only
    omega

/-- C6 — removing the physically last member moves no bytes and changes no
other member's header offset: the member list merely loses the member, the
backing bytes are untouched, and only the directory-start offset drops, by
that member's span size (which reaches to the directory start). -/
theorem c6_remove_last_frame (st : ZState) (member : Member)
    (hmem : member ∈ st.filelist)
    (hdist : st.filelist.Pairwise (fun x y => ¬ x.header_offset = y.header_offset))
    (hlast : ∀ m ∈ st.filelist, ¬ m = member → m.header_offset < member.header_offset)
    (hsd : ∀ m ∈ st.filelist, m.header_offset ≤ st.start_dir) :
    (removeMember st member).data = st.data ∧
      (removeMember st member).filelist = st.filelist.erase member ∧
      spanSize st member = st.start_dir - member.header_offset ∧
      (removeMember st member).start_dir + spanSize st member = st.start_dir := by
  obtain ⟨A, B, hAB, hA, hB, hBs⟩ := sorted_split st member hmem hdist
  have hperm : List.Perm (st.filelist.insertionSort memberLe) st.filelist :=
    List.perm_insertionSort _ _
  have hBnil : B = [] := by
    cases B with
    | nil => rfl
    | cons b B2 =>
      exfalso
      have hbmem : b ∈ st.filelist := (hperm.mem_iff).mp (by rw [hAB]; simp)
      have hgt := hB b (by simp)
      by_cases hbm : b = member
      · rw [hbm] at hgt
        exact lt_irrefl _ hgt
      · have := hlast b hbmem hbm
        omega
  subst hBnil
  have hspan := spanAt_eq_spanSize st member A [] hAB hA hB hBs hsd
  have hspanval : spanSize st member = st.start_dir - member.header_offset := by
    rw [← hspan]
    rfl
  have hloop : removeLoop member st.start_dir (st.filelist.insertionSort memberLe) 0 st.data
      = removeLoop member st.start_dir [member] 0 st.data := by
    rw [hAB]
    exact removeLoop_skip member st.start_dir A [member] 0 st.data hA
  have hcons := removeLoop_cons_member member st.start_dir [] 0 st.data
  refine ⟨?_, ?_, hspanval, ?_⟩
  · unfold removeMember
    dsimp only
    rw [hloop, hcons]
    rfl
  · unfold removeMember
    dsimp only
    rw [hloop, hcons]
    show (st.filelist.map (applyUpdates [])).erase member = st.filelist.erase member
    rw [List.map_congr_left (fun m _ => applyUpdates_nil m)]
    simp
  · unfold removeMember
    dsimp only
    rw [hloop, hcons]
    show st.start_dir - spanAt st.start_dir member [] + spanSize st member = st.start_dir
    rw [hspan]
    have := hsd member hmem
    rw [hspanval]
    omega

/-- `NameToInfo` lookup misses when no member carries the name. -/
theorem pyGet_name_index_none (L : List Member) (pattern : String)
    (h : ∀ m ∈ L, ¬ m.filename = pattern) :
    pyGet (L.map (fun m => (m.filename, m))) pattern = none := by
  unfold pyGet
  have hf : (L.map (fun m => (m.filename, m))).find? (fun p => p.1 = pattern) = none := by
    rw [List.find?_eq_none]
    intro p hp
    obtain ⟨m, hm, rfl⟩ := List.mem_map.mp hp
    simpa using h m hm
  rw [hf]

/-- With unique names, `NameToInfo` lookup returns the member that carries
the name. -/
theorem pyGet_name_index_some : ∀ (L : List Member) (pattern : String) (member : Member),
    member ∈ L → member.filename = pattern →
    L.Pairwise (fun x y => ¬ x.filename = y.filename) →
    pyGet (L.map (fun m => (m.filename, m))) pattern = some member
  | [], _, _, hmem, _, _ => absurd hmem (by simp)
  | m :: L, pattern, member, hmem, hpat, hnames => by
    unfold pyGet
    simp only [List.map_cons, List.find?_cons]
    by_cases hmp : m.filename = pattern
    · rw [show (decide (m.filename = pattern)) = true by simpa using hmp]
      have hm : m = member := by
        rcases List.mem_cons.mp hmem with rfl | h2
        · rfl
        · exact absurd (hpat ▸ hmp) ((List.pairwise_cons.mp hnames).1 member h2)
      rw [hm]
    · rw [show (decide (m.filename = pattern)) = false by simpa using hmp]
      have hmem2 : member ∈ L := by
        rcases List.mem_cons.mp hmem with rfl | h2
        · exact absurd hpat hmp
        · exact h2
      have := pyGet_name_index_some L pattern member hmem2 hpat
        (List.pairwise_cons.mp hnames).2
      unfold pyGet at this
      exact this

/-- Erasing the removed member from the shifted list removes exactly the one
name, provided no other member shares it. -/
theorem map_shift_erase_filenames (member : Member) (S : Nat) :
    ∀ (L : List Member),
      (∀ x ∈ L, ¬ x = member → ¬ x.filename = member.filename) →
      ((L.map (shiftAfter member S)).erase member).map Member.filename =
        (L.map Member.filename).erase member.filename
  | [], _ => rfl
  | m :: L, hname => by
    have hfn : ∀ x, (shiftAfter member S x).filename = x.filename := by
      intro x
      unfold shiftAfter
      split <;> rfl
    by_cases hm : m = member
    · subst hm
      have hself : shiftAfter m S m = m := by
        unfold shiftAfter
        rw [if_neg (lt_irrefl _)]
      simp only [List.map_cons, hself, List.erase_cons_head]
      rw [List.map_map]
      have : Member.filename ∘ shiftAfter m S = Member.filename := by
        funext x
        exact hfn x
      rw [this]
    · have hne : ¬ m.filename = member.filename := hname m (by simp) hm
      have hne2 : ¬ shiftAfter member S m = member := by
        intro he
        apply hne
        rw [← hfn m, he]
      simp only [List.map_cons]
      rw [List.erase_cons_tail (by simpa using hne2),
        List.erase_cons_tail (by simpa using hne)]
      simp only [List.map_cons, hfn m]
      rw [map_shift_erase_filenames member S L
        (fun x hx hxm => hname x (by simp [hx]) hxm)]

/-- C9 — for an exact-name pattern, `remove` raises `KeyError` when no
member has the name, and removes exactly that member when one does. -/
theorem c9_exact_name_removal (st : ZState) (pattern : String)
    (hmode : st.mode = "a") (hop : st.fpOpen = true) (hwr : st.writing = false)
    (hglob1 : pattern.toList.contains '*' = false)
    (hglob2 : pattern.toList.contains '?' = false)
    (hcoh : st.nameToInfo = st.filelist.map (fun m => (m.filename, m)))
    (hnames : st.filelist.Pairwise (fun x y => ¬ x.filename = y.filename))
    (hdist : st.filelist.Pairwise (fun x y => ¬ x.header_offset = y.header_offset))
    (hsd : ∀ m ∈ st.filelist, m.header_offset ≤ st.start_dir) :
    ((∀ m ∈ st.filelist, ¬ m.filename = pattern) →
        remove st pattern = .error .keyError) ∧
      (∀ member ∈ st.filelist, member.filename = pattern →
        remove st pattern = .ok (removeMember st member) ∧
          (removeMember st member).filelist.map Member.filename =
            (st.filelist.map Member.filename).erase pattern) := by
  have hifs : remove st pattern =
      match pyGet st.nameToInfo pattern with
      | none => .error .keyError
      | some info => .ok (removeMember st info) := by
    unfold remove
    rw [if_neg (not_not_intro hmode), if_neg (not_not_intro hop),
      if_neg (by simp [hwr]),
      if_pos ⟨by simpa using hglob1, by simpa using hglob2⟩]
  constructor
  · intro habs
    rw [hifs, hcoh, pyGet_name_index_none st.filelist pattern habs]
  · intro member hmem hpat
    have hfound : pyGet st.nameToInfo pattern = some member := by
      rw [hcoh]
      exact pyGet_name_index_some st.filelist pattern member hmem hpat hnames
    constructor
    · rw [hifs, hfound]
    · obtain ⟨hfl, _⟩ := removeMember_spec st member hmem hdist hsd
      rw [hfl, ← hpat]
      apply map_shift_erase_filenames
      intro x hx hxm
      have hsymm : Symmetric (fun a b : Member => ¬ a.filename = b.filename) :=
        fun a b h he => h he.symm
      exact hnames.forall hsymm hx hmem hxm

/-- C1 witness: removing the middle member (span 15) of a concrete
three-member archive. -/
theorem c1_remove_shifts_by_span_witness :
    (removeMember threeMemberArchive ⟨"beta", 10⟩).start_dir
        + spanSize threeMemberArchive ⟨"beta", 10⟩ = threeMemberArchive.start_dir ∧
      (removeMember threeMemberArchive ⟨"beta", 10⟩).filelist =
        (threeMemberArchive.filelist.map
          (shiftAfter ⟨"beta", 10⟩ (spanSize threeMemberArchive ⟨"beta", 10⟩))).erase
          ⟨"beta", 10⟩ ∧
      (∀ m ∈ threeMemberArchive.filelist,
        (Member.mk "beta" 10).header_offset < m.header_offset →
        (shiftAfter ⟨"beta", 10⟩ (spanSize threeMemberArchive ⟨"beta", 10⟩) m).header_offset
            + spanSize threeMemberArchive ⟨"beta", 10⟩ = m.header_offset) :=
  c1_remove_shifts_by_span threeMemberArchive ⟨"beta", 10⟩
    (by decide) (by decide) (by decide)

/-- C6 witness: removing the physically last member of the concrete
archive. -/
theorem c6_remove_last_frame_witness :
    (removeMember threeMemberArchive ⟨"gamma", 25⟩).data = threeMemberArchive.data ∧
      (removeMember threeMemberArchive ⟨"gamma", 25⟩).filelist =
        threeMemberArchive.filelist.erase ⟨"gamma", 25⟩ ∧
      spanSize threeMemberArchive ⟨"gamma", 25⟩ =
        threeMemberArchive.start_dir - (Member.mk "gamma" 25).header_offset ∧
      (removeMember threeMemberArchive ⟨"gamma", 25⟩).start_dir
          + spanSize threeMemberArchive ⟨"gamma", 25⟩ = threeMemberArchive.start_dir :=
  c6_remove_last_frame threeMemberArchive ⟨"gamma", 25⟩
    (by decide) (by decide) (by decide) (by decide)

/-- C9 witness: a missing exact name raises `KeyError`; an existing exact
name removes exactly that member. -/
theorem c9_exact_name_removal_witness :
    remove threeMemberArchive "delta" = .error .keyError ∧
      remove threeMemberArchive "beta" =
          .ok (removeMember threeMemberArchive ⟨"beta", 10⟩) ∧
        (removeMember threeMemberArchive ⟨"beta", 10⟩).filelist.map Member.filename =
          (threeMemberArchive.filelist.map Member.filename).erase "beta" :=
  ⟨(c9_exact_name_removal threeMemberArchive "delta" (by decide) (by decide) (by decide)
      (by decide) (by decide) (by decide) (by decide) (by decide) (by decide)).1
      (by decide),
    (c9_exact_name_removal threeMemberArchive "beta" (by decide) (by decide) (by decide)
      (by decide) (by decide) (by decide) (by decide) (by decide) (by decide)).2
      ⟨"beta", 10⟩ (by decide) (by decide)⟩

end Cosmofy
